import Mathlib

/-!
Verification of the instant-coffee availability monitor.

The repository is a Cloudflare Worker observed in two deployment variants
sharing one `src/index.ts` shape:

* Variant A ("Policy A"): the cache representation is the handle list joined
  with `-`; the run is suppressed iff the stored string is byte-equal.
* Variant B ("Policy B"): the cache representation is a JSON-encoded handle
  array; the run is suppressed iff a stored array is present and every
  current handle occurs in it (`arrayIsSubset`); the variant also exposes a
  `fetch` endpoint rendering a signed-token-gated composite image.

Modelling conventions used throughout this file:

* Timestamps (`updated_at` / `published_at` strings fed to `new Date`) are
  modelled as nonnegative epoch milliseconds (`Nat`); `new Date(0)` is `0`.
* `JSON.stringify` on arrays of strings and the corresponding `JSON.parse`
  are modelled executably (`jsonStringify` / `jsonParseStringArray`).  The
  parse model accepts exactly the whitespace-free string-array form that
  `cachePut` produces; other JSON shapes count as unparsable, which is the
  only behaviour the claims exercise.
* Thrown JavaScript exceptions are modelled with `Except RunError`; an
  uncaught exception escaping the `fetch` handler is a `FetchOutcome.fault`.
* `title.localeCompare` is modelled as code point comparison (`strLe`; they
  agree on the ASCII titles exercised here); JS `Array.prototype.sort` by
  that key is modelled as a stable insertion sort.
-/

/-- A thrown JavaScript error: either the explicit `new Error(...)` thrown on
the one-variant contract, or a TypeError from an unguarded property access. -/
inductive RunError where
  | contractViolation (msg : String)
  | typeError (msg : String)
  deriving DecidableEq, Repr

/-- JSON escaping of one character, as performed by `JSON.stringify`. -/
def escapeChar (c : Char) : List Char :=
  if c = '"' then ['\\', '"']
  else if c = '\\' then ['\\', '\\']
  else if c = '\n' then ['\\', 'n']
  else if c = '\r' then ['\\', 'r']
  else if c = '\t' then ['\\', 't']
  else if c.toNat < 32 then
    let hex : Nat → Char := fun n => if n < 10 then Char.ofNat (48 + n) else Char.ofNat (87 + n)
    ['\\', 'u', '0', '0', hex (c.toNat / 16), hex (c.toNat % 16)]
  else [c]

/-- A JSON string literal (quotes included), as `JSON.stringify` renders one. -/
def encodeString (s : String) : List Char :=
  '"' :: (s.data.flatMap escapeChar ++ ['"'])

/-- Model of `JSON.stringify` on a string array: `["a","b"]`, no whitespace. -/
def jsonStringify (l : List String) : String :=
  ⟨'[' :: (List.intercalate [','] (l.map encodeString) ++ [']'])⟩

/-- Parse the body of a JSON string literal after its opening quote; returns
the decoded characters and the remaining input. -/
def parseStrBody : List Char → Option (List Char × List Char)
  | [] => none
  | c :: rest =>
    if c = '"' then some ([], rest)
    else if c = '\\' then
      match rest with
      | [] => none
      | e :: rest2 =>
        let u : Option Char :=
          if e = '"' then some '"'
          else if e = '\\' then some '\\'
          else if e = 'n' then some '\n'
          else if e = 'r' then some '\r'
          else if e = 't' then some '\t'
          else none
        match u with
        | none => none
        | some uc =>
          match parseStrBody rest2 with
          | none => none
          | some (s, r) => some (uc :: s, r)
    else
      match parseStrBody rest with
      | none => none
      | some (s, r) => some (c :: s, r)

/-- Parse one or more comma-separated JSON string literals followed by `]`.
The fuel argument only bounds the recursion; `jsonParseStringArray` supplies
enough for any input. -/
def parseItemsF : Nat → List Char → Option (List String × List Char)
  | 0, _ => none
  | _ + 1, [] => none
  | fuel + 1, c :: rest =>
    if c = '"' then
      match parseStrBody rest with
      | none => none
      | some (str, r2) =>
        match r2 with
        | [] => none
        | d :: r3 =>
          if d = ']' then some ([String.mk str], r3)
          else if d = ',' then
            match parseItemsF fuel r3 with
            | none => none
            | some (l, r4) => some (String.mk str :: l, r4)
          else none
    else none

/-- Model of `JSON.parse` specialised to the values this program persists:
a JSON array of strings with no surrounding whitespace (exactly the form
`jsonStringify` emits).  Any other input is unparsable (`none`), standing for
the exception `JSON.parse` would throw. -/
def jsonParseStringArray (s : String) : Option (List String) :=
  match s.data with
  | '[' :: ']' :: [] => some []
  | '[' :: rest =>
    match parseItemsF (rest.length + 1) rest with
    | some (l, []) => some l
    | _ => none
  | _ => none

/-- `cacheGet` from the Policy B variant: read the stored raw value, JSON-parse
it inside `try`/`catch`, and return `null` both for an absent (or falsy) value
and for a parse failure.  Total by construction: reloading never raises. -/
def cacheGet (stored : Option String) : Option (List String) :=
  match stored with
  | none => none
  | some s =>
    if s = "" then none
    else
      match jsonParseStringArray s with
      | some l => some l
      | none => none

/-- `arrayIsSubset(subset, arr)`: `subset.every((item) => arr.includes(item))`. -/
def arrayIsSubset (subset arr : List String) : Bool :=
  subset.all (fun item => arr.contains item)

/-- The Policy B suppression condition
`cachedCoffees && arrayIsSubset(cacheRepr, cachedCoffees)`:
a JS array is truthy (even when empty), `null` is falsy. -/
def shouldSuppressB (cached : Option (List String)) (current : List String) : Bool :=
  match cached with
  | none => false
  | some st => arrayIsSubset current st

def BASE_URL : String := "https://www.blackwhiteroasters.com"

def SECTION_NAME : String := "specialty-instant-coffee"

/-- Whether the first list is a prefix of the second. -/
def listStartsWith : List Char → List Char → Bool
  | [], _ => true
  | _ :: _, [] => false
  | p :: ps, c :: cs => p = c && listStartsWith ps cs

/-- Split on a non-empty separator; fuel bounds the recursion and
`jsSplitOn` supplies enough for any input. -/
def splitSepAux (sep : List Char) : Nat → List Char → List (List Char)
  | _, [] => [[]]
  | 0, s => [s]
  | fuel + 1, c :: rest =>
    if listStartsWith sep (c :: rest) then
      [] :: splitSepAux sep fuel (List.drop sep.length (c :: rest))
    else
      match splitSepAux sep fuel rest with
      | [] => [[c]]
      | h :: t => (c :: h) :: t

/-- `String.prototype.split`-style splitting on a plain-string separator
(executable stand-in for `String.splitOn`, which the kernel cannot unfold). -/
def jsSplitOn (s pat : String) : List String :=
  if pat = "" then [s]
  else (splitSepAux pat.data (s.data.length + 1) s.data).map String.mk

/-- JS `String.prototype.replace` with a plain-string pattern replaces only the
first occurrence; here specialised to an empty replacement. -/
def replaceFirst (s pat : String) : String :=
  match jsSplitOn s pat with
  | [] => s
  | [a] => a
  | a :: rest => a ++ String.intercalate pat rest

/-- Code-point comparison of character lists (≤). -/
def charListLe : List Char → List Char → Bool
  | [], _ => true
  | _ :: _, [] => false
  | a :: as, b :: bs =>
    if a = b then charListLe as bs else decide (a.toNat < b.toNat)

/-- `a.localeCompare(b) <= 0`, with localeCompare modelled as code point
comparison (they agree on the ASCII titles exercised here). -/
def strLe (a b : String) : Bool :=
  charListLe a.data b.data

/-- Stable insertion keeping the list ordered by a string key; together with
`sortByTitle` this models `Array.prototype.sort` with the comparator
`(a, b) => a.title.localeCompare(b.title)`. -/
def insertByKey {α : Type} (key : α → String) (c : α) : List α → List α
  | [] => [c]
  | d :: ds => if strLe (key c) (key d) then c :: d :: ds else d :: insertByKey key c ds

/-- Stable sort by a string key (see `insertByKey`). -/
def sortByTitle {α : Type} (key : α → String) (l : List α) : List α :=
  l.foldr (insertByKey key) []

/-- `(latest, t) => t > latest ? t : latest`, the reducer used for `updatedAt`. -/
def jsMax (latest t : Nat) : Nat :=
  if t > latest then t else latest

/-- A variant in the Policy A deployment (`updated_at` as epoch milliseconds). -/
structure VariantA where
  title : String
  available : Bool
  price : String
  updated_at : Nat
  deriving DecidableEq, Repr

/-- A product in the Policy A deployment. -/
structure ProductA where
  title : String
  handle : String
  variants : List VariantA
  deriving DecidableEq, Repr

/-- The derived `Coffee` record of the Policy A deployment. -/
structure CoffeeA where
  title : String
  handle : String
  price : String
  updatedAt : Nat
  deriving DecidableEq, Repr

/-- `JSON.stringify` of a Policy A variant object (keys in declaration order;
the modelled `updated_at` renders as a number). -/
def variantJsonA (v : VariantA) : String :=
  "\x7b\"title\":" ++ String.mk (encodeString v.title)
    ++ ",\"available\":" ++ (if v.available then "true" else "false")
    ++ ",\"price\":" ++ String.mk (encodeString v.price)
    ++ ",\"updated_at\":" ++ toString v.updated_at ++ "\x7d"

/-- `JSON.stringify` of a Policy A product object. -/
def productJsonA (p : ProductA) : String :=
  "\x7b\"title\":" ++ String.mk (encodeString p.title)
    ++ ",\"handle\":" ++ String.mk (encodeString p.handle)
    ++ ",\"variants\":[" ++ String.intercalate "," (p.variants.map variantJsonA) ++ "]\x7d"

/-- The message of the `new Error` thrown when a product does not have exactly
one variant (Policy A payload form). -/
def variantCountErrorA (p : ProductA) : RunError :=
  .contractViolation ("Expected exactly one variant per product, response was " ++ productJsonA p)

/-- The body of `products.flatMap(...)` in the Policy A `getAvailableCoffees`:
per product, enforce the single-variant contract, keep available variants,
project to `Coffee`, sort that per-product list, and concatenate. -/
def coffeesOfA : List ProductA → Except RunError (List CoffeeA)
  | [] => .ok []
  | p :: ps =>
    if p.variants.length != 1 then .error (variantCountErrorA p)
    else
      match coffeesOfA ps with
      | .error e => .error e
      | .ok rest =>
        .ok (sortByTitle (fun c => c.title)
              ((p.variants.filter (fun v => v.available)).map (fun v =>
                { title := p.title, handle := p.handle, price := v.price,
                  updatedAt := v.updated_at })) ++ rest)

/-- `updatedAt` in Policy A: over a non-empty product list, fold the
`t > latest ? t : latest` reducer with initial `new Date(0)` across all
variants of all products; `null` for an empty list. -/
def updatedAtA (ps : List ProductA) : Option Nat :=
  if ps.length > 0 then
    some ((ps.flatMap (fun p => p.variants)).foldl (fun latest v => jsMax latest v.updated_at) 0)
  else none

/-- Result record of the Policy A `getAvailableCoffees`. -/
structure GetResultA where
  coffees : List CoffeeA
  cacheRepr : String
  updatedAt : Option Nat
  deriving DecidableEq, Repr

/-- The Policy A `getAvailableCoffees`, starting from the schema-validated
product list (the fetch and zod parse feeding it are environmental). -/
def getAvailableCoffeesA (ps : List ProductA) : Except RunError GetResultA :=
  (coffeesOfA ps).map (fun coffees =>
    { coffees := coffees,
      cacheRepr := String.intercalate "-" (coffees.map (fun c => c.handle)),
      updatedAt := updatedAtA ps })

/-- Gregorian civil date from days since 1970-01-01 (year, month, day). -/
def civilFromDays (z0 : Nat) : Nat × Nat × Nat :=
  let z := z0 + 719468
  let era := z / 146097
  let doe := z % 146097
  let yoe := (doe - doe / 1460 + doe / 36524 - doe / 146097) / 365
  let y := yoe + era * 400
  let doy := doe - (365 * yoe + yoe / 4 - yoe / 100)
  let mp := (5 * doy + 2) / 153
  let d := doy - (153 * mp + 2) / 5 + 1
  let m := if mp < 10 then mp + 3 else mp - 9
  (if m ≤ 2 then y + 1 else y, m, d)

/-- English month name used by en-US date formatting. -/
def monthNameEnUS (m : Nat) : String :=
  match m with
  | 1 => "January" | 2 => "February" | 3 => "March" | 4 => "April"
  | 5 => "May" | 6 => "June" | 7 => "July" | 8 => "August"
  | 9 => "September" | 10 => "October" | 11 => "November" | 12 => "December"
  | _ => ""

/-- Modelled from the spec: the en-US long-form date (month name, day, year)
that `toLocaleTimeString('en-US', ...)` renders for the given UTC epoch
milliseconds; the platform formatter itself is not part of the repository. -/
def formatLongDateEnUS (ms : Nat) : String :=
  let c := civilFromDays (ms / 86400000)
  monthNameEnUS c.2.1 ++ " " ++ toString c.2.2 ++ ", " ++ toString c.1

/-- One bullet line of the notification:
`- ☕️ <title with first " - Instant Coffee" removed> ($<price>)`. -/
def coffeeLineA (c : CoffeeA) : String :=
  "- ☕️ " ++ replaceFirst c.title " - Instant Coffee" ++ " ($" ++ c.price ++ ")"

/-- The trailing inventory-change line of the Policy A message. -/
def datelineA (t : Nat) : String :=
  "-# Black & White\x27s instant coffee inventory last changed on "
    ++ formatLongDateEnUS t ++ " UTC."

/-- The lines pushed onto `botMessage` in the Policy A `scheduled` handler, in
push order; the dispatched body is these joined with a newline. -/
def messageLinesA (coffees : List CoffeeA) (updatedAt : Option Nat) : List String :=
  let base :=
    if coffees.isEmpty then
      ["Black & White no longer has any instant coffees available."]
    else
      ("Black & White has a new selection of instant coffees:" :: coffees.map coffeeLineA)
        ++ ["→ [View the collection](" ++ BASE_URL ++ "/collections/" ++ SECTION_NAME ++ ")"]
  match updatedAt with
  | none => base
  | some t => base ++ [datelineA t]

/-- The notification body dispatched by the Policy A variant. -/
def buildMessageA (coffees : List CoffeeA) (updatedAt : Option Nat) : String :=
  String.intercalate "\n" (messageLinesA coffees updatedAt)

/-- Observable outcome of one successful Policy A `scheduled` tick. -/
structure RunAOut where
  suppressed : Bool
  didPut : Bool
  finalCache : Option String
  fresh : String
  deriving DecidableEq, Repr

/-- The Policy A `scheduled` handler reduced to its cache/suppression effects:
suppress iff the raw stored string is `===` the joined-handle string; the
`put` runs only in the non-suppressed branch. -/
def runA (storedRaw : Option String) (ps : List ProductA) : Except RunError RunAOut :=
  (getAvailableCoffeesA ps).map (fun g =>
    if storedRaw = some g.cacheRepr then
      { suppressed := true, didPut := false, finalCache := storedRaw, fresh := g.cacheRepr }
    else
      { suppressed := false, didPut := true, finalCache := some g.cacheRepr,
        fresh := g.cacheRepr })

/-- A variant in the Policy B deployment (no per-variant timestamp). -/
structure VariantB where
  title : String
  available : Bool
  price : String
  deriving DecidableEq, Repr

/-- An image reference of the Policy B schema. -/
structure ImageB where
  src : String
  deriving DecidableEq, Repr

/-- A product in the Policy B deployment (`published_at` as epoch
milliseconds; `images` may validate as the empty array). -/
structure ProductB where
  title : String
  handle : String
  published_at : Nat
  variants : List VariantB
  images : List ImageB
  deriving DecidableEq, Repr

/-- The derived `Coffee` record of the Policy B deployment. -/
structure CoffeeB where
  title : String
  handle : String
  price : String
  imageUrl : String
  deriving DecidableEq, Repr

/-- `JSON.stringify` of a Policy B variant object. -/
def variantJsonB (v : VariantB) : String :=
  "\x7b\"title\":" ++ String.mk (encodeString v.title)
    ++ ",\"available\":" ++ (if v.available then "true" else "false")
    ++ ",\"price\":" ++ String.mk (encodeString v.price) ++ "\x7d"

/-- `JSON.stringify` of a Policy B product object. -/
def productJsonB (p : ProductB) : String :=
  "\x7b\"title\":" ++ String.mk (encodeString p.title)
    ++ ",\"handle\":" ++ String.mk (encodeString p.handle)
    ++ ",\"published_at\":" ++ toString p.published_at
    ++ ",\"variants\":[" ++ String.intercalate "," (p.variants.map variantJsonB)
    ++ "],\"images\":["
    ++ String.intercalate ","
        (p.images.map (fun i => "\x7b\"src\":" ++ String.mk (encodeString i.src) ++ "\x7d"))
    ++ "]\x7d"

/-- The `new Error` thrown on the one-variant contract (Policy B payload). -/
def variantCountErrorB (p : ProductB) : RunError :=
  .contractViolation ("Expected exactly one variant per product, response was " ++ productJsonB p)

/-- The TypeError JavaScript raises for `product.images[0].src` when the
`images` array is empty. -/
def imagesTypeError : RunError :=
  .typeError "Cannot read properties of undefined (reading \x27src\x27)"

/-- The `.map` body over a product\x27s available variants in the Policy B
`getAvailableCoffees`: each projection reads `product.images[0].src` without a
guard, so an empty `images` array raises `imagesTypeError`. -/
def mapCoffeesB (p : ProductB) : List VariantB → Except RunError (List CoffeeB)
  | [] => .ok []
  | v :: vs =>
    match p.images.head? with
    | none => .error imagesTypeError
    | some img =>
      match mapCoffeesB p vs with
      | .error e => .error e
      | .ok rest =>
        .ok ({ title := p.title, handle := p.handle, price := v.price,
               imageUrl := img.src } :: rest)

/-- The body of `products.flatMap(...)` in the Policy B `getAvailableCoffees`. -/
def coffeesOfB : List ProductB → Except RunError (List CoffeeB)
  | [] => .ok []
  | p :: ps =>
    if p.variants.length != 1 then .error (variantCountErrorB p)
    else
      match mapCoffeesB p (p.variants.filter (fun v => v.available)) with
      | .error e => .error e
      | .ok this =>
        match coffeesOfB ps with
        | .error e => .error e
        | .ok rest => .ok (sortByTitle (fun c => c.title) this ++ rest)

/-- `updatedAt` in Policy B: the same reducer folded over the products\x27
`published_at` values. -/
def updatedAtB (ps : List ProductB) : Option Nat :=
  if ps.length > 0 then
    some (ps.foldl (fun latest p => jsMax latest p.published_at) 0)
  else none

/-- Result record of the Policy B `getAvailableCoffees` (the cache
representation is now the handle array itself). -/
structure GetResultB where
  coffees : List CoffeeB
  cacheRepr : List String
  updatedAt : Option Nat
  deriving DecidableEq, Repr

/-- The Policy B `getAvailableCoffees`, from the schema-validated products. -/
def getAvailableCoffeesB (ps : List ProductB) : Except RunError GetResultB :=
  (coffeesOfB ps).map (fun coffees =>
    { coffees := coffees,
      cacheRepr := coffees.map (fun c => c.handle),
      updatedAt := updatedAtB ps })

/-- Observable outcome of one successful Policy B `scheduled` tick. -/
structure RunBOut where
  suppressed : Bool
  didPut : Bool
  finalCache : Option String
  fresh : List String
  deriving DecidableEq, Repr

/-- The Policy B `scheduled` handler reduced to its cache/suppression effects:
`cacheGet` the stored raw value, suppress on
`cachedCoffees && arrayIsSubset(cacheRepr, cachedCoffees)`, and only the
non-suppressed branch executes `cachePut(env, cacheRepr)` (which stores
`JSON.stringify(cacheRepr)`). -/
def runB (storedRaw : Option String) (ps : List ProductB) : Except RunError RunBOut :=
  (getAvailableCoffeesB ps).map (fun g =>
    if shouldSuppressB (cacheGet storedRaw) g.cacheRepr then
      { suppressed := true, didPut := false, finalCache := storedRaw, fresh := g.cacheRepr }
    else
      { suppressed := false, didPut := true, finalCache := some (jsonStringify g.cacheRepr),
        fresh := g.cacheRepr })

/-- Modelled from the spec: the symmetric signing primitive behind
`jwt.sign`/`jwt.verify` (the jsonwebtoken library is not part of the
repository).  A simple keyed hash of the serialized payload serves as the
signature tag; what the claims need is only that verification recomputes and
compares the tag. -/
def jwtTag (secret body : String) : Nat :=
  (secret ++ "." ++ body).data.foldl (fun h c => (h * 131 + c.toNat) % 1000000007) 7

/-- Modelled from the spec: `jwt.sign` over the payload `\x7bimages: [...]\x7d`,
here carrying the image list as its JSON array. -/
def jwtSign (secret : String) (images : List String) : String :=
  jsonStringify images ++ "." ++ toString (jwtTag secret (jsonStringify images))

/-- Modelled from the spec: `jwt.verify` — recompute the tag over the body and
reject (`none`, standing for the thrown `JsonWebTokenError`) on mismatch. -/
def jwtVerify (secret token : String) : Option (List String) :=
  match (jsSplitOn token ".").reverse with
  | [] => none
  | [_] => none
  | tag :: restRev =>
    let body := String.intercalate "." restRev.reverse
    if tag = toString (jwtTag secret body) then jsonParseStringArray body else none

/-- Canvas dimensions of `compositeImages` for `n` tiles, with
`squareSize = 300 * 2` and `spacing = 20 * 2`:
`(squareSize * n + spacing * (2 + n - 1), squareSize + spacing * 2)`. -/
def compositeDims (n : Nat) : Nat × Nat :=
  (600 * n + 40 * (2 + n - 1), 600 + 40 * 2)

/-- Outcome of the `fetch` handler: an HTTP response, or an uncaught thrown
exception escaping the handler (there is no `try`/`catch` around it). -/
inductive FetchOutcome where
  | response (status : Nat) (body : String)
  | fault (msg : String)
  deriving DecidableEq, Repr

/-- The Policy B `fetch` handler over the extracted `payload` query parameter
(`none` when the parameter is missing; the empty string is also falsy in the
`!payload` guard).  `jwt.verify` failure is NOT caught: it surfaces as a
thrown fault, not as a response. -/
def fetchHandler (verify : String → Option (List String)) (payload : Option String) :
    FetchOutcome :=
  match payload with
  | none => .response 400 "No payload provided"
  | some p =>
    if p = "" then .response 400 "No payload provided"
    else
      match verify p with
      | none => .fault "JsonWebTokenError: invalid signature"
      | some images =>
        .response 200
          ("image/avif composite " ++ toString (compositeDims images.length).1 ++ "x"
            ++ toString (compositeDims images.length).2)

/-- Two available single-variant Policy A products with handles `a`, `b`. -/
def psA0 : List ProductA :=
  [{ title := "A", handle := "a",
     variants := [{ title := "v", available := true, price := "1.00", updated_at := 100 }] },
   { title := "B", handle := "b",
     variants := [{ title := "v", available := true, price := "2.00", updated_at := 200 }] }]

/-- The end-to-end fixture of the spec: a Bravo-titled product listed before an
Alpha-titled one, both available, single-variant. -/
def psA1 : List ProductA :=
  [{ title := "Bravo - Instant Coffee", handle := "bravo",
     variants := [{ title := "v", available := true, price := "12.00", updated_at := 100 }] },
   { title := "Alpha - Instant Coffee", handle := "alpha",
     variants := [{ title := "v", available := true, price := "9.50", updated_at := 50 }] }]

/-- A Policy A listing whose second product violates the one-variant contract. -/
def psA2 : List ProductA :=
  [{ title := "A", handle := "a",
     variants := [{ title := "v", available := true, price := "1.00", updated_at := 100 }] },
   { title := "B", handle := "b",
     variants := [{ title := "v1", available := true, price := "2.00", updated_at := 200 },
                  { title := "v2", available := false, price := "3.00", updated_at := 300 }] }]

/-- Two available single-variant Policy B products with handles `a`, `b`. -/
def psB0 : List ProductB :=
  [{ title := "A", handle := "a", published_at := 100,
     variants := [{ title := "v", available := true, price := "1.00" }],
     images := [{ src := "https://img/a" }] },
   { title := "B", handle := "b", published_at := 200,
     variants := [{ title := "v", available := true, price := "2.00" }],
     images := [{ src := "https://img/b" }] }]

/-- A Policy B listing whose single product is schema-valid, available and
single-variant, but has an empty `images` array. -/
def psB1 : List ProductB :=
  [{ title := "A", handle := "a", published_at := 100,
     variants := [{ title := "v", available := true, price := "1.00" }],
     images := [] }]

/-- A Policy B listing whose first product violates the one-variant contract. -/
def psB2 : List ProductB :=
  [{ title := "A", handle := "a", published_at := 100, variants := [],
     images := [{ src := "https://img/a" }] }]

/-- The outcome of the suppressed Policy B run used as concrete evidence. -/
def rB1 : RunBOut :=
  { suppressed := true, didPut := false, finalCache := some "[\"a\",\"b\",\"c\"]",
    fresh := ["a", "b"] }

/-- The outcome of the suppressed Policy A run used as concrete evidence. -/
def rA1 : RunAOut :=
  { suppressed := true, didPut := false, finalCache := some "a-b", fresh := "a-b" }

/-- The timestamps `updatedAt` ranges over in Policy A: every variant\x27s
`updated_at`, across all products, available or not. -/
def tsA (ps : List ProductA) : List Nat :=
  (ps.flatMap (fun p => p.variants)).map (fun v => v.updated_at)

/-- The timestamps `updatedAt` ranges over in Policy B: every product\x27s
`published_at`, across all products, available or not. -/
def tsB (ps : List ProductB) : List Nat :=
  ps.map (fun p => p.published_at)

/-- The successful `getAvailableCoffees` result on `psA0`. -/
def gA0 : GetResultA :=
  { coffees := [{ title := "A", handle := "a", price := "1.00", updatedAt := 100 },
                { title := "B", handle := "b", price := "2.00", updatedAt := 200 }],
    cacheRepr := "a-b", updatedAt := some 200 }

/-- The offending (two-variant) product of `psA2`. -/
def pA2bad : ProductA :=
  { title := "B", handle := "b",
    variants := [{ title := "v1", available := true, price := "2.00", updated_at := 200 },
                 { title := "v2", available := false, price := "3.00", updated_at := 300 }] }

/-- A two-variant Policy B product (a one-variant-contract violation). -/
def pB3bad : ProductB :=
  { title := "B", handle := "b", published_at := 200,
    variants := [{ title := "v1", available := true, price := "2.00" },
                 { title := "v2", available := false, price := "3.00" }],
    images := [{ src := "https://img/b" }] }

/-- A Policy B listing where an available product with an empty `images` array
precedes a product violating the one-variant contract. -/
def psB3 : List ProductB :=
  [{ title := "A", handle := "a", published_at := 100,
     variants := [{ title := "v", available := true, price := "1.00" }],
     images := [] },
   pB3bad]

/-- C1: Under Policy B, for every current handle sequence and stored cache
value, the run suppresses the notification iff the stored value is present and
every current handle is contained in the stored handle set; an empty current
set against any stored set is suppressed (vacuous subset), and an absent
stored value always notifies. -/
theorem policyB_suppress_iff (cached : Option (List String)) (current : List String) :
    (shouldSuppressB cached current = true ↔
      ∃ st, cached = some st ∧ ∀ h ∈ current, h ∈ st)
    ∧ (∀ st, shouldSuppressB (some st) [] = true)
    ∧ shouldSuppressB none current = false := by
  refine ⟨?_, fun st => rfl, rfl⟩
  cases cached with
  | none => simp [shouldSuppressB]
  | some st =>
    simp only [shouldSuppressB, arrayIsSubset, List.all_eq_true]
    constructor
    · intro hall
      exact ⟨st, rfl, fun x hx => by simpa using hall x hx⟩
    · rintro ⟨st2, hst2, hall⟩
      injection hst2 with hst2
      subst hst2
      intro x hx
      simpa using hall x hx

/-- Witness for C1 at a concrete input: stored `{a,b,c}`, current `{a,b}` is
suppressed. -/
theorem policyB_suppress_iff_witness :
    shouldSuppressB (some ["a", "b", "c"]) ["a", "b"] = true :=
  (policyB_suppress_iff (some ["a", "b", "c"]) ["a", "b"]).1.mpr
    ⟨["a", "b", "c"], rfl, by decide⟩

/-- C2 counterexample: a successful Policy B run with stored `["a","b","c"]`
and current handles `["a","b"]` is suppressed and does NOT overwrite the
stored cache value — the final cache still holds the old string, which is not
the serialization of the fresh handle sequence. -/
theorem policyB_persist_counterexample :
    runB (some "[\"a\",\"b\",\"c\"]") psB0 =
      Except.ok { suppressed := true, didPut := false,
                  finalCache := some "[\"a\",\"b\",\"c\"]", fresh := ["a", "b"] }
    ∧ jsonStringify ["a", "b"] ≠ "[\"a\",\"b\",\"c\"]" :=
  ⟨rfl, by decide⟩

/-- C2 (amended): after every successful Policy B run, the stored cache value
is overwritten with the freshly computed handle sequence exactly when the
suppression predicate did NOT fire; a suppressed run leaves the stored value
unchanged. -/
theorem policyB_persist_amended (raw : Option String) (ps : List ProductB) (r : RunBOut)
    (h : runB raw ps = Except.ok r) :
    r.didPut = !r.suppressed
    ∧ (r.suppressed = true → r.finalCache = raw)
    ∧ (r.suppressed = false → r.finalCache = some (jsonStringify r.fresh)) := by
  unfold runB at h
  cases hg : getAvailableCoffeesB ps with
  | error e => rw [hg] at h; simp [Except.map] at h
  | ok g =>
    rw [hg] at h
    simp only [Except.map, Except.ok.injEq] at h
    by_cases hs : shouldSuppressB (cacheGet raw) g.cacheRepr = true
    · rw [if_pos hs] at h
      subst h
      refine ⟨rfl, fun _ => rfl, fun hfalse => ?_⟩
      simp at hfalse
    · rw [if_neg hs] at h
      subst h
      refine ⟨rfl, fun htrue => ?_, fun _ => rfl⟩
      simp at htrue

/-- Witness for C2 (amended) at the concrete suppressed run of
`policyB_persist_counterexample`. -/
theorem policyB_persist_amended_witness :
    rB1.didPut = !rB1.suppressed
    ∧ (rB1.suppressed = true → rB1.finalCache = some "[\"a\",\"b\",\"c\"]")
    ∧ (rB1.suppressed = false → rB1.finalCache = some (jsonStringify rB1.fresh)) :=
  policyB_persist_amended (some "[\"a\",\"b\",\"c\"]") psB0 rB1 rfl

/-- C3 counterexample: a successful Policy A run whose joined-handle string
equals the stored one is suppressed and does NOT execute the cache write
(`didPut = false`), so persistence does not occur on every evaluation. -/
theorem policyA_persist_counterexample :
    runA (some "a-b") psA0 =
      Except.ok { suppressed := true, didPut := false, finalCache := some "a-b",
                  fresh := "a-b" } :=
  rfl

/-- C3 (amended): under Policy A the notification is suppressed iff the
joined-handle cache string is byte-equal to the stored string; the cache write
executes only on non-suppressed runs, yet after every successful run the
stored value equals the fresh cache string (the skipped write is a no-op). -/
theorem policyA_run_amended (raw : Option String) (ps : List ProductA) (r : RunAOut)
    (h : runA raw ps = Except.ok r) :
    ∃ g, getAvailableCoffeesA ps = Except.ok g
      ∧ (r.suppressed = true ↔ raw = some g.cacheRepr)
      ∧ r.didPut = !r.suppressed
      ∧ r.finalCache = some g.cacheRepr := by
  unfold runA at h
  cases hg : getAvailableCoffeesA ps with
  | error e => rw [hg] at h; simp [Except.map] at h
  | ok g =>
    rw [hg] at h
    simp only [Except.map, Except.ok.injEq] at h
    refine ⟨g, rfl, ?_⟩
    by_cases hs : raw = some g.cacheRepr
    · rw [if_pos hs] at h
      subst h
      exact ⟨⟨fun _ => hs, fun _ => rfl⟩, rfl, hs⟩
    · rw [if_neg hs] at h
      subst h
      refine ⟨⟨fun htrue => ?_, fun heq => absurd heq hs⟩, rfl, rfl⟩
      simp at htrue

/-- Witness for C3 (amended) at the concrete suppressed run of
`policyA_persist_counterexample`. -/
theorem policyA_run_amended_witness :
    ∃ g, getAvailableCoffeesA psA0 = Except.ok g
      ∧ (rA1.suppressed = true ↔ some "a-b" = some g.cacheRepr)
      ∧ rA1.didPut = !rA1.suppressed
      ∧ rA1.finalCache = some g.cacheRepr :=
  policyA_run_amended (some "a-b") psA0 rA1 rfl

/-- C4 (evaluation at the failing input): on the spec fixture listing a
Bravo-titled product before an Alpha-titled one, the derived Coffee list keeps
the input product order — Bravo before Alpha — even though Alpha sorts first,
because the `.sort` call sits inside `flatMap` and only sorts each product\x27s
singleton variant list.  The availability filter itself behaves as claimed. -/
theorem coffees_unsorted_eval :
    (getAvailableCoffeesA psA1).map (fun g => g.coffees.map (fun c => c.title)) =
      Except.ok ["Bravo - Instant Coffee", "Alpha - Instant Coffee"]
    ∧ strLe "Alpha - Instant Coffee" "Bravo - Instant Coffee" = true
    ∧ ("Alpha - Instant Coffee" : String) ≠ "Bravo - Instant Coffee" :=
  ⟨rfl, rfl, by decide⟩

/-- C6 (evaluation at the failing input): the non-suppressed message body built
from the Bravo/Alpha fixture has the header, then the Bravo line BEFORE the
Alpha line (input order, not sorted order), each with the " - Instant Coffee"
suffix stripped and the price prefixed with `$`, then the collection footer. -/
theorem notification_lines_eval :
    (getAvailableCoffeesA psA1).map (fun g => (messageLinesA g.coffees g.updatedAt).take 4) =
      Except.ok ["Black & White has a new selection of instant coffees:",
                 "- ☕️ Bravo ($12.00)",
                 "- ☕️ Alpha ($9.50)",
                 "→ [View the collection](https://www.blackwhiteroasters.com/collections/specialty-instant-coffee)"] :=
  rfl

/-- C7: reloading the stored cache value never raises — `cacheGet` is a total
function into `Option`; an absent value and any unparsable stored value both
come back as `none` (no prior state), a parsable stored array comes back as
itself, and a value persisted by `cachePut` round-trips. -/
theorem cacheGet_corrupt_safe :
    cacheGet none = none
    ∧ (∀ s, jsonParseStringArray s = none → cacheGet (some s) = none)
    ∧ (∀ s l, jsonParseStringArray s = some l → cacheGet (some s) = some l)
    ∧ cacheGet (some (jsonStringify ["a", "b"])) = some ["a", "b"] := by
  refine ⟨rfl, ?_, ?_, by rfl⟩
  · intro s h
    show (if s = "" then none
          else match jsonParseStringArray s with
            | some l => some l
            | none => none) = none
    by_cases he : s = ""
    · rw [if_pos he]
    · rw [if_neg he, h]
  · intro s l h
    have hne : s ≠ "" := by
      intro he
      rw [he] at h
      exact Option.noConfusion h
    show (if s = "" then none
          else match jsonParseStringArray s with
            | some l => some l
            | none => none) = some l
    rw [if_neg hne, h]

/-- Witness for C7 at a concrete corrupt stored value. -/
theorem cacheGet_corrupt_safe_witness :
    jsonParseStringArray "corrupt \x7bjson" = none
    ∧ cacheGet (some "corrupt \x7bjson") = none :=
  ⟨by rfl, cacheGet_corrupt_safe.2.1 "corrupt \x7bjson" (by rfl)⟩

/-- C8 counterexample: a token signed for `\x7bimages: []\x7d` and then
tampered (one byte appended) fails verification, and the `fetch` handler then
produces an uncaught thrown fault — not a 400-class response as claimed —
because `jwt.verify` is called outside any `try`/`catch`. -/
theorem fetch_invalid_token_counterexample :
    jwtVerify "secret" (jwtSign "secret" [] ++ "0") = none
    ∧ fetchHandler (jwtVerify "secret") (some (jwtSign "secret" [] ++ "0")) =
        FetchOutcome.fault "JsonWebTokenError: invalid signature" :=
  ⟨rfl, rfl⟩

/-- C8 (amended): a missing (or empty, hence falsy) token yields a local 400
response and no image is rendered; a token that fails signature verification
aborts the handler with a thrown fault — also rendering no image — rather
than a 400-class response. -/
theorem fetch_token_amended (verify : String → Option (List String)) (p : String)
    (hv : verify p = none) :
    fetchHandler verify none = FetchOutcome.response 400 "No payload provided"
    ∧ fetchHandler verify (some p) =
        (if p = "" then FetchOutcome.response 400 "No payload provided"
         else FetchOutcome.fault "JsonWebTokenError: invalid signature") := by
  refine ⟨rfl, ?_⟩
  show (if p = "" then FetchOutcome.response 400 "No payload provided"
        else match verify p with
          | none => FetchOutcome.fault "JsonWebTokenError: invalid signature"
          | some images =>
            FetchOutcome.response 200
              ("image/avif composite " ++ toString (compositeDims images.length).1 ++ "x"
                ++ toString (compositeDims images.length).2)) =
      (if p = "" then FetchOutcome.response 400 "No payload provided"
       else FetchOutcome.fault "JsonWebTokenError: invalid signature")
  by_cases he : p = ""
  · rw [if_pos he, if_pos he]
  · rw [if_neg he, if_neg he, hv]

/-- Witness for C8 (amended) at the concrete tampered token. -/
theorem fetch_token_amended_witness :
    fetchHandler (jwtVerify "secret") none = FetchOutcome.response 400 "No payload provided"
    ∧ fetchHandler (jwtVerify "secret") (some (jwtSign "secret" [] ++ "0")) =
        (if (jwtSign "secret" [] ++ "0") = "" then FetchOutcome.response 400 "No payload provided"
         else FetchOutcome.fault "JsonWebTokenError: invalid signature") :=
  fetch_token_amended (jwtVerify "secret") (jwtSign "secret" [] ++ "0") rfl

theorem foldl_jsMax_ub (l : List Nat) (a : Nat) :
    a ≤ l.foldl jsMax a ∧ ∀ t ∈ l, t ≤ l.foldl jsMax a := by
  induction l generalizing a with
  | nil =>
    refine ⟨Nat.le_refl a, ?_⟩
    intro t ht
    exact absurd ht (List.not_mem_nil t)
  | cons x xs ih =>
    simp only [List.foldl_cons]
    have hax : a ≤ jsMax a x := by unfold jsMax; split <;> omega
    have hxx : x ≤ jsMax a x := by unfold jsMax; split <;> omega
    refine ⟨Nat.le_trans hax (ih (jsMax a x)).1, ?_⟩
    intro t ht
    rcases List.mem_cons.mp ht with h | h
    · rw [h]
      exact Nat.le_trans hxx (ih (jsMax a x)).1
    · exact (ih (jsMax a x)).2 t h

theorem foldl_jsMax_mem (l : List Nat) (a : Nat) :
    l.foldl jsMax a = a ∨ l.foldl jsMax a ∈ l := by
  induction l generalizing a with
  | nil => exact Or.inl rfl
  | cons x xs ih =>
    simp only [List.foldl_cons]
    rcases ih (jsMax a x) with h | h
    · rw [h]
      unfold jsMax
      by_cases hc : x > a
      · rw [if_pos hc]
        exact Or.inr (List.mem_cons_self x xs)
      · rw [if_neg hc]
        exact Or.inl rfl
    · exact Or.inr (List.mem_cons_of_mem x h)

theorem foldMax_spec (l : List Nat) (hl : l ≠ []) :
    l.foldl jsMax 0 ∈ l ∧ ∀ t ∈ l, t ≤ l.foldl jsMax 0 := by
  refine ⟨?_, (foldl_jsMax_ub l 0).2⟩
  rcases foldl_jsMax_mem l 0 with h | h
  · cases l with
    | nil => exact absurd rfl hl
    | cons x xs =>
      have hx := (foldl_jsMax_ub (x :: xs) 0).2 x (List.mem_cons_self x xs)
      rw [h] at hx ⊢
      have hx0 : x = 0 := Nat.le_zero.mp hx
      rw [← hx0]
      exact List.mem_cons_self x xs
  · exact h

theorem foldMax_eq_of_mem_equiv (l l2 : List Nat) (hmem : ∀ t, t ∈ l ↔ t ∈ l2) :
    l.foldl jsMax 0 = l2.foldl jsMax 0 := by
  cases l with
  | nil =>
    cases l2 with
    | nil => rfl
    | cons y ys => exact absurd ((hmem y).mpr (List.mem_cons_self y ys)) (List.not_mem_nil y)
  | cons x xs =>
    cases l2 with
    | nil => exact absurd ((hmem x).mp (List.mem_cons_self x xs)) (List.not_mem_nil x)
    | cons y ys =>
      have h1 := foldMax_spec (x :: xs) (by simp)
      have h2 := foldMax_spec (y :: ys) (by simp)
      exact Nat.le_antisymm (h2.2 _ ((hmem _).mp h1.1)) (h1.2 _ ((hmem _).mpr h2.1))

theorem updatedAtA_eq_fold (ps : List ProductA) :
    updatedAtA ps = if ps.length > 0 then some ((tsA ps).foldl jsMax 0) else none := by
  unfold updatedAtA tsA
  rw [List.foldl_map]

theorem updatedAtB_eq_fold (ps : List ProductB) :
    updatedAtB ps = if ps.length > 0 then some ((tsB ps).foldl jsMax 0) else none := by
  unfold updatedAtB tsB
  rw [List.foldl_map]

theorem tsA_mem_iff_of_perm (ps ps2 : List ProductA) (hp : ps.Perm ps2) (m : Nat) :
    m ∈ tsA ps ↔ m ∈ tsA ps2 := by
  unfold tsA
  constructor
  · intro h
    simp only [List.mem_map, List.mem_flatMap] at h ⊢
    rcases h with ⟨v, ⟨p, hpin, hv⟩, rfl⟩
    exact ⟨v, ⟨p, hp.mem_iff.mp hpin, hv⟩, rfl⟩
  · intro h
    simp only [List.mem_map, List.mem_flatMap] at h ⊢
    rcases h with ⟨v, ⟨p, hpin, hv⟩, rfl⟩
    exact ⟨v, ⟨p, hp.mem_iff.mpr hpin, hv⟩, rfl⟩

theorem tsB_mem_iff_of_perm (ps ps2 : List ProductB) (hp : ps.Perm ps2) (m : Nat) :
    m ∈ tsB ps ↔ m ∈ tsB ps2 := by
  unfold tsB
  constructor
  · intro h
    simp only [List.mem_map] at h ⊢
    rcases h with ⟨p, hpin, rfl⟩
    exact ⟨p, hp.mem_iff.mp hpin, rfl⟩
  · intro h
    simp only [List.mem_map] at h ⊢
    rcases h with ⟨p, hpin, rfl⟩
    exact ⟨p, hp.mem_iff.mpr hpin, rfl⟩

theorem updatedAtA_perm (ps ps2 : List ProductA) (hp : ps.Perm ps2) :
    updatedAtA ps = updatedAtA ps2 := by
  rw [updatedAtA_eq_fold, updatedAtA_eq_fold, hp.length_eq]
  by_cases h : ps2.length > 0
  · rw [if_pos h, if_pos h]
    exact congrArg some (foldMax_eq_of_mem_equiv _ _ (tsA_mem_iff_of_perm ps ps2 hp))
  · rw [if_neg h, if_neg h]

theorem updatedAtB_perm (ps ps2 : List ProductB) (hp : ps.Perm ps2) :
    updatedAtB ps = updatedAtB ps2 := by
  rw [updatedAtB_eq_fold, updatedAtB_eq_fold, hp.length_eq]
  by_cases h : ps2.length > 0
  · rw [if_pos h, if_pos h]
    exact congrArg some (foldMax_eq_of_mem_equiv _ _ (tsB_mem_iff_of_perm ps ps2 hp))
  · rw [if_neg h, if_neg h]

theorem getA_ok_updatedAt (ps : List ProductA) (g : GetResultA)
    (h : getAvailableCoffeesA ps = Except.ok g) : g.updatedAt = updatedAtA ps := by
  unfold getAvailableCoffeesA at h
  cases hc : coffeesOfA ps with
  | error e => rw [hc] at h; simp [Except.map] at h
  | ok c =>
    rw [hc] at h
    simp only [Except.map, Except.ok.injEq] at h
    rw [← h]

theorem getB_ok_updatedAt (ps : List ProductB) (g : GetResultB)
    (h : getAvailableCoffeesB ps = Except.ok g) : g.updatedAt = updatedAtB ps := by
  unfold getAvailableCoffeesB at h
  cases hc : coffeesOfB ps with
  | error e => rw [hc] at h; simp [Except.map] at h
  | ok c =>
    rw [hc] at h
    simp only [Except.map, Except.ok.injEq] at h
    rw [← h]

theorem coffeesOfA_ok_single (ps : List ProductA) (c : List CoffeeA)
    (h : coffeesOfA ps = Except.ok c) : ∀ p ∈ ps, p.variants.length = 1 := by
  induction ps generalizing c with
  | nil =>
    intro p hp
    exact absurd hp (List.not_mem_nil p)
  | cons q t ih =>
    intro p hp
    simp only [coffeesOfA] at h
    by_cases hq : (q.variants.length != 1) = true
    · rw [if_pos hq] at h
      cases h
    · rw [if_neg hq] at h
      rcases List.mem_cons.mp hp with rfl | hp2
      · simpa using hq
      · cases hr : coffeesOfA t with
        | error e => rw [hr] at h; cases h
        | ok rest => exact ih rest hr p hp2

/-- C5: in both variants, `updatedAt` is `none` exactly on an empty product
list; on a non-empty list (of a successful run) it is the maximum of all
considered timestamps — all variants\x27 `updated_at` in Policy A, all
products\x27 `published_at` in Policy B, across available and unavailable
products alike — and it is invariant under permutation of the input. -/
theorem updatedAt_max_spec :
    (∀ ps g, getAvailableCoffeesA ps = Except.ok g →
        (ps = [] → g.updatedAt = none)
        ∧ (ps ≠ [] → ∃ m, g.updatedAt = some m ∧ m ∈ tsA ps ∧ ∀ t ∈ tsA ps, t ≤ m)
        ∧ (∀ ps2 g2, ps.Perm ps2 → getAvailableCoffeesA ps2 = Except.ok g2 →
            g2.updatedAt = g.updatedAt))
    ∧ (∀ ps g, getAvailableCoffeesB ps = Except.ok g →
        (ps = [] → g.updatedAt = none)
        ∧ (ps ≠ [] → ∃ m, g.updatedAt = some m ∧ m ∈ tsB ps ∧ ∀ t ∈ tsB ps, t ≤ m)
        ∧ (∀ ps2 g2, ps.Perm ps2 → getAvailableCoffeesB ps2 = Except.ok g2 →
            g2.updatedAt = g.updatedAt)) := by
  constructor
  · intro ps g h
    have hup := getA_ok_updatedAt ps g h
    refine ⟨?_, ?_, ?_⟩
    · intro hnil
      rw [hup, hnil]
      rfl
    · intro hne
      have hcex : ∃ c, coffeesOfA ps = Except.ok c := by
        unfold getAvailableCoffeesA at h
        cases hcc : coffeesOfA ps with
        | error e => rw [hcc] at h; simp [Except.map] at h
        | ok c => exact ⟨c, rfl⟩
      rcases hcex with ⟨c, hc⟩
      rcases hps : ps with _ | ⟨q, t⟩
      · exact absurd hps hne
      · subst hps
        have hq1 : q.variants.length = 1 :=
          coffeesOfA_ok_single _ _ hc q (List.mem_cons_self q t)
        rcases List.length_eq_one.mp hq1 with ⟨v, hv⟩
        have hvmem : v.updated_at ∈ tsA (q :: t) := by
          simp only [tsA, List.mem_map, List.mem_flatMap]
          refine ⟨v, ⟨q, List.mem_cons_self q t, ?_⟩, rfl⟩
          rw [hv]
          exact List.mem_singleton.mpr rfl
        have hspec := foldMax_spec (tsA (q :: t)) (List.ne_nil_of_mem hvmem)
        refine ⟨(tsA (q :: t)).foldl jsMax 0, ?_, hspec.1, hspec.2⟩
        rw [hup, updatedAtA_eq_fold]
        rw [if_pos (by simp)]
    · intro ps2 g2 hperm h2
      rw [getA_ok_updatedAt ps2 g2 h2, hup]
      exact (updatedAtA_perm ps ps2 hperm).symm
  · intro ps g h
    have hup := getB_ok_updatedAt ps g h
    refine ⟨?_, ?_, ?_⟩
    · intro hnil
      rw [hup, hnil]
      rfl
    · intro hne
      rcases hps : ps with _ | ⟨q, t⟩
      · exact absurd hps hne
      · subst hps
        have hqmem : q.published_at ∈ tsB (q :: t) := by
          simp only [tsB, List.mem_map]
          exact ⟨q, List.mem_cons_self q t, rfl⟩
        have hspec := foldMax_spec (tsB (q :: t)) (List.ne_nil_of_mem hqmem)
        refine ⟨(tsB (q :: t)).foldl jsMax 0, ?_, hspec.1, hspec.2⟩
        rw [hup, updatedAtB_eq_fold]
        rw [if_pos (by simp)]
    · intro ps2 g2 hperm h2
      rw [getB_ok_updatedAt ps2 g2 h2, hup]
      exact (updatedAtB_perm ps ps2 hperm).symm

/-- Witness for C5 at the concrete two-product Policy A listing `psA0`. -/
theorem updatedAt_max_spec_witness :
    (psA0 = [] → gA0.updatedAt = none)
    ∧ (psA0 ≠ [] → ∃ m, gA0.updatedAt = some m ∧ m ∈ tsA psA0 ∧ ∀ t ∈ tsA psA0, t ≤ m)
    ∧ (∀ ps2 g2, psA0.Perm ps2 → getAvailableCoffeesA ps2 = Except.ok g2 →
        g2.updatedAt = gA0.updatedAt) :=
  updatedAt_max_spec.1 psA0 gA0 rfl

theorem coffeesOfA_find_error (ps : List ProductA) (p : ProductA)
    (h : ps.find? (fun q => q.variants.length != 1) = some p) :
    coffeesOfA ps = Except.error (variantCountErrorA p) := by
  induction ps with
  | nil => simp at h
  | cons q t ih =>
    simp only [coffeesOfA]
    by_cases hq : (q.variants.length != 1) = true
    · rw [show (q :: t).find? (fun q2 => q2.variants.length != 1) = some q from
          List.find?_cons_of_pos t hq] at h
      injection h with h
      subst h
      rw [if_pos hq]
    · rw [show (q :: t).find? (fun q2 => q2.variants.length != 1) =
            t.find? (fun q2 => q2.variants.length != 1) from
          List.find?_cons_of_neg t hq] at h
      rw [if_neg hq, ih h]

theorem mapCoffeesB_ok (p : ProductB) (vs : List VariantB) (hi : p.images ≠ []) :
    ∃ l, mapCoffeesB p vs = Except.ok l := by
  induction vs with
  | nil => exact ⟨[], rfl⟩
  | cons v vs2 ih =>
    rcases ih with ⟨l, hl⟩
    cases himg : p.images with
    | nil => exact absurd himg hi
    | cons i is =>
      refine ⟨{ title := p.title, handle := p.handle, price := v.price,
                imageUrl := i.src } :: l, ?_⟩
      simp only [mapCoffeesB]
      rw [himg]
      simp only [List.head?_cons]
      rw [hl]

theorem coffeesOfB_error_of_bad (ps : List ProductB)
    (hex : ∃ p ∈ ps, p.variants.length ≠ 1) :
    ∃ e, coffeesOfB ps = Except.error e := by
  induction ps with
  | nil =>
    rcases hex with ⟨p, hp, _⟩
    exact absurd hp (List.not_mem_nil p)
  | cons q t ih =>
    simp only [coffeesOfB]
    by_cases hq : (q.variants.length != 1) = true
    · exact ⟨variantCountErrorB q, by rw [if_pos hq]⟩
    · rw [if_neg hq]
      have hex2 : ∃ p ∈ t, p.variants.length ≠ 1 := by
        rcases hex with ⟨p, hp, hbad⟩
        rcases List.mem_cons.mp hp with rfl | hp2
        · exact absurd hbad (by simpa using hq)
        · exact ⟨p, hp2, hbad⟩
      cases hm : mapCoffeesB q (q.variants.filter (fun v => v.available)) with
      | error e0 => exact ⟨e0, rfl⟩
      | ok this0 =>
        rcases ih hex2 with ⟨e, he⟩
        rw [he]
        exact ⟨e, rfl⟩

theorem coffeesOfB_prefix_error (pre : List ProductB) (p : ProductB) (post : List ProductB)
    (hpre1 : ∀ q ∈ pre, q.variants.length = 1)
    (hpre2 : ∀ q ∈ pre, q.images = [] → q.variants.filter (fun v => v.available) = [])
    (hp : p.variants.length ≠ 1) :
    coffeesOfB (pre ++ p :: post) = Except.error (variantCountErrorB p) := by
  induction pre with
  | nil =>
    simp only [List.nil_append, coffeesOfB]
    rw [if_pos (show (p.variants.length != 1) = true by simpa using hp)]
  | cons q t ih =>
    have hq1 : q.variants.length = 1 := hpre1 q (List.mem_cons_self q t)
    simp only [List.cons_append, coffeesOfB]
    rw [if_neg (show ¬((q.variants.length != 1) = true) by simp [hq1])]
    have hqok : ∃ l, mapCoffeesB q (q.variants.filter (fun v => v.available)) = Except.ok l := by
      by_cases hqi : q.images = []
      · rw [hpre2 q (List.mem_cons_self q t) hqi]
        exact ⟨[], rfl⟩
      · exact mapCoffeesB_ok q _ hqi
    rcases hqok with ⟨l, hl⟩
    rw [hl]
    simp only [List.append_eq]
    rw [ih (fun q2 h2 => hpre1 q2 (List.mem_cons_of_mem q h2))
          (fun q2 h2 => hpre2 q2 (List.mem_cons_of_mem q h2))]

theorem coffeesOfB_imagesEmpty (ps : List ProductB) :
    (∀ q ∈ ps, q.variants.length = 1) →
    (∃ p ∈ ps, p.variants.filter (fun v => v.available) ≠ [] ∧ p.images = []) →
    coffeesOfB ps = Except.error imagesTypeError := by
  induction ps with
  | nil =>
    intro _ hex
    rcases hex with ⟨p, hp, _⟩
    exact absurd hp (List.not_mem_nil p)
  | cons q t ih =>
    intro hall hex
    have hq1 : q.variants.length = 1 := hall q (List.mem_cons_self q t)
    simp only [coffeesOfB]
    have hqfalse : ¬((q.variants.length != 1) = true) := by simp [hq1]
    rw [if_neg hqfalse]
    by_cases hqbad : q.variants.filter (fun v => v.available) ≠ [] ∧ q.images = []
    · have hcrash :
          mapCoffeesB q (q.variants.filter (fun v => v.available)) =
            Except.error imagesTypeError := by
        cases hfil : q.variants.filter (fun v => v.available) with
        | nil => exact absurd hfil hqbad.1
        | cons v vs =>
          simp only [mapCoffeesB]
          rw [hqbad.2]
          rfl
      rw [hcrash]
    · have hqok : ∃ l, mapCoffeesB q (q.variants.filter (fun v => v.available)) = Except.ok l := by
        by_cases hfil : q.variants.filter (fun v => v.available) = []
        · rw [hfil]
          exact ⟨[], rfl⟩
        · have hqi : q.images ≠ [] := fun hi => hqbad ⟨hfil, hi⟩
          exact mapCoffeesB_ok q _ hqi
      rcases hqok with ⟨l, hl⟩
      have hex2 : ∃ p ∈ t, p.variants.filter (fun v => v.available) ≠ [] ∧ p.images = [] := by
        rcases hex with ⟨p, hp, hprop⟩
        rcases List.mem_cons.mp hp with rfl | hp2
        · exact absurd hprop hqbad
        · exact ⟨p, hp2, hprop⟩
      rw [hl, ih (fun q2 h2 => hall q2 (List.mem_cons_of_mem q h2)) hex2]

/-- C9 counterexample: in `psB3` an available product with an empty `images`
array precedes the two-variant product found by the contract check, and the
run aborts with the generic unguarded-access TypeError instead of the
descriptive error identifying the offending product. -/
theorem snapshot_contract_counterexample :
    psB3.find? (fun q => q.variants.length != 1) = some pB3bad
    ∧ getAvailableCoffeesB psB3 = Except.error imagesTypeError
    ∧ imagesTypeError ≠ variantCountErrorB pB3bad :=
  ⟨rfl, rfl, by decide⟩

/-- C9 (amended): whenever some product has zero or more than one variant the
run fails deterministically — never returning a partial Coffee list.  In
Policy A the failure always carries the descriptive error identifying the
first offending product; in Policy B it does so provided no EARLIER product
(one before the first offender) trips the unguarded `images[0]` access (an
available variant with an empty `images` array) — a tripping product after
the offender is harmless, since the variant-count check fires first.  The
third conjunct states this over the split `pre ++ p :: post`: every product
before `p` is single-variant and non-tripping, `post` is unconstrained. -/
theorem snapshot_contract_amended :
    (∀ ps p, ps.find? (fun q => q.variants.length != 1) = some p →
        getAvailableCoffeesA ps = Except.error (variantCountErrorA p))
    ∧ (∀ ps : List ProductB, (∃ p ∈ ps, p.variants.length ≠ 1) →
        ∃ e, getAvailableCoffeesB ps = Except.error e)
    ∧ (∀ (pre : List ProductB) (p : ProductB) (post : List ProductB),
        (∀ q ∈ pre, q.variants.length = 1) →
        (∀ q ∈ pre, q.images = [] → q.variants.filter (fun v => v.available) = []) →
        p.variants.length ≠ 1 →
        getAvailableCoffeesB (pre ++ p :: post) = Except.error (variantCountErrorB p)) := by
  refine ⟨?_, ?_, ?_⟩
  · intro ps p h
    unfold getAvailableCoffeesA
    rw [coffeesOfA_find_error ps p h]
    rfl
  · intro ps hex
    rcases coffeesOfB_error_of_bad ps hex with ⟨e, he⟩
    refine ⟨e, ?_⟩
    unfold getAvailableCoffeesB
    rw [he]
    rfl
  · intro pre p post hpre1 hpre2 hp
    unfold getAvailableCoffeesB
    rw [coffeesOfB_prefix_error pre p post hpre1 hpre2 hp]
    rfl

/-- Witness for C9 (amended): the Policy A conjunct at `psA2` (second product
two-variant); the deterministic-failure conjunct at the zero-variant listing
`psB2`; and the descriptive-error conjunct at a listing whose first offender
`pB3bad` is preceded by a sound product and followed by the tripping
empty-images product of `psB1` — the case the `pre`/`post` split covers. -/
theorem snapshot_contract_amended_witness :
    getAvailableCoffeesA psA2 = Except.error (variantCountErrorA pA2bad)
    ∧ (∃ e, getAvailableCoffeesB psB2 = Except.error e)
    ∧ getAvailableCoffeesB
        ([{ title := "A", handle := "a", published_at := 100,
            variants := [{ title := "v", available := true, price := "1.00" }],
            images := [{ src := "https://img/a" }] }] ++ pB3bad :: psB1) =
        Except.error (variantCountErrorB pB3bad) :=
  ⟨snapshot_contract_amended.1 psA2 pA2bad rfl,
   snapshot_contract_amended.2.1 psB2
     ⟨{ title := "A", handle := "a", published_at := 100, variants := [],
        images := [{ src := "https://img/a" }] }, by decide, by decide⟩,
   snapshot_contract_amended.2.2
     [{ title := "A", handle := "a", published_at := 100,
        variants := [{ title := "v", available := true, price := "1.00" }],
        images := [{ src := "https://img/a" }] }]
     pB3bad psB1 (by decide) (by decide) (by decide)⟩

/-- C10: in the Policy B variant, any schema-valid listing of single-variant
products in which some product has an available variant but an empty `images`
array makes `getAvailableCoffees` abort with the unguarded
`product.images[0].src` TypeError — no Coffee list and no descriptive
contract-violation error is produced. -/
theorem imagesEmpty_typeError (ps : List ProductB)
    (hall : ∀ q ∈ ps, q.variants.length = 1)
    (hex : ∃ p ∈ ps, p.variants.filter (fun v => v.available) ≠ [] ∧ p.images = []) :
    getAvailableCoffeesB ps = Except.error imagesTypeError := by
  unfold getAvailableCoffeesB
  rw [coffeesOfB_imagesEmpty ps hall hex]
  rfl

/-- Witness for C10 at the concrete single-product listing `psB1`. -/
theorem imagesEmpty_typeError_witness :
    getAvailableCoffeesB psB1 = Except.error imagesTypeError :=
  imagesEmpty_typeError psB1 (by decide)
    ⟨{ title := "A", handle := "a", published_at := 100,
       variants := [{ title := "v", available := true, price := "1.00" }],
       images := [] }, by decide, by decide, rfl⟩
